import Mathlib

/-!
Shallow embedding, in Lean 4, of the core algorithms of the ov3r-api
repository: the semantic chunker (`src/utils/chunker/index.ts`), the
sentence/section splitter, the retrieval relevance filter and query engine
(`src/utils/query/index.ts`), and the crawl-job tracker
(`src/utils/track_crawler_jobs/index.ts`) together with the tracker-operation
sequence performed by the ingestion route `POST /v1/comprehend/crawl/url`
(`src/routes/comprehend/index.ts`).

Modelling conventions:
* JavaScript strings are modelled as Lean `String`; character-level
  processing works on `String.toList`.
* JavaScript numbers are modelled as `ℚ` where the code only compares and
  divides (similarity scores, match ratios, durations) and as `ℝ` where the
  code takes square roots (cosine similarity over embedding vectors);
  `maxTokens` and string lengths are `ℕ`.
* External collaborators (the embedding model, the language model, the
  stores, the clock) are passed in as explicit oracle parameters.
-/

namespace Ov3r

/-! ## Generic JavaScript string helpers -/

/-- Model of the JavaScript `String.prototype.split` with a one-character
separator: splits into the (possibly empty) pieces between occurrences of
`sep`.  The accumulator holds the current piece reversed. -/
def splitChars (sep : Char) : List Char → List Char → List (List Char)
  | acc, [] => [acc.reverse]
  | acc, c :: cs =>
    if c == sep then acc.reverse :: splitChars sep [] cs
    else splitChars sep (c :: acc) cs

/-- Model of the JavaScript `s.split(sep)` for a one-character separator. -/
def jsSplit (sep : Char) (s : String) : List String :=
  (splitChars sep [] s.toList).map List.asString

/-- Model of the JavaScript `Array.prototype.join(sep)`. -/
def jsJoin (sep : String) : List String → String
  | [] => ""
  | [x] => x
  | x :: y :: xs => x ++ sep ++ jsJoin sep (y :: xs)

/-- Model of the JavaScript `String.prototype.toLowerCase` (ASCII fragment). -/
def jsToLower (s : String) : String :=
  (s.toList.map Char.toLower).asString

/-- Model of the JavaScript `String.prototype.trim`. -/
def trimChars (l : List Char) : List Char :=
  ((l.dropWhile Char.isWhitespace).reverse.dropWhile Char.isWhitespace).reverse

/-- Model of the JavaScript `String.prototype.trim` on `String`. -/
def jsTrim (s : String) : String :=
  (trimChars s.toList).asString

/-- Decides whether `pat` occurs as a contiguous sublist of `l`. -/
def infixCheck (pat : List Char) : List Char → Bool
  | [] => pat.isEmpty
  | c :: cs => pat.isPrefixOf (c :: cs) || infixCheck pat cs

/-- Model of the JavaScript `String.prototype.includes`: substring test. -/
def jsIncludes (s pat : String) : Bool :=
  infixCheck pat.toList s.toList

/-- Model of the JavaScript `String.prototype.startsWith`. -/
def jsStartsWith (p s : String) : Bool :=
  p.toList.isPrefixOf s.toList

/-- Model of `[...new Set(xs)]`: de-duplication keeping first occurrences. -/
def jsDedup (l : List String) : List String :=
  l.foldl (fun acc x => if x ∈ acc then acc else acc ++ [x]) []

/-! ## Relevance filter and query engine (`src/utils/query/index.ts`)

The vector store returns scored documents; only the fields the engine reads
(`pageContent`, `metadata.url`) are modelled. -/

/-- Retrieved document as consumed by `answerQuestion`: the page content and
the optional `metadata.url`. -/
structure Doc where
  pageContent : String
  url : Option String
deriving DecidableEq

/-- Stopword list of `areResultsRelevant` (source lines 76-81). -/
def stopWords : List String :=
  ["what", "when", "where", "how", "why", "who", "the", "and", "for", "that", "this"]

/-- Key-term extraction of `areResultsRelevant`: lower-case the question,
split on a single space, keep words longer than 3 characters that are not
stopwords (source lines 76-81). -/
def keyTermsOf (question : String) : List String :=
  (jsSplit ' ' (jsToLower question)).filter
    (fun w => decide (3 < w.toList.length) && !(stopWords.contains w))

/-- Combined lower-cased content of the first three results, joined by a
space (source lines 70-73). -/
def combinedContent (results : List (Doc × ℚ)) : String :=
  jsJoin " " ((results.take 3).map (fun r => jsToLower r.1.pageContent))

/-- Key terms of the question occurring as substrings of the combined
content of the top three results (source line 84). -/
def termMatches (results : List (Doc × ℚ)) (question : String) : List String :=
  (keyTermsOf question).filter (fun t => jsIncludes (combinedContent results) t)

/-- Model of `areResultsRelevant` (source lines 62-88).  The JavaScript
ratio `termMatches.length / keyTerms.length` is a float; with zero key terms
it is `NaN` and the `>= 0.5` test is false.  The rational model divides
totally (`0 / 0 = 0`), which yields the same boolean outcome. -/
def areResultsRelevant (results : List (Doc × ℚ)) (question : String) : Bool :=
  match results with
  | [] => false
  | (_, highestScore) :: _ =>
    if highestScore < 7/10 then false
    else
      decide ((1 : ℚ)/2 ≤
        ((termMatches results question).length : ℚ) / ((keyTermsOf question).length : ℚ))

/-- Answer record returned by `answerQuestion`: content plus source URLs. -/
structure AnswerResult where
  content : String
  sources : List String
deriving DecidableEq

/-- Observable outcome of one `answerQuestion` call: the returned answer,
the TTL of the cache write performed (none on the cache-hit path, which
writes nothing), and whether the language model was invoked. -/
structure QueryOutcome where
  result : AnswerResult
  cacheWriteTTL : Option ℕ
  llmCalled : Bool
deriving DecidableEq

/-- Deterministic no-data message (source lines 129-135); the wording is
abbreviated but, as in the source, mentions the state and the question.  The
claims under verification do not depend on the exact message text. -/
def noDataContent (question state : String) : String :=
  "I do not have enough relevant information in my database to answer your question about "
    ++ state ++ " state laws regarding " ++ question ++ "."

/-- Model of the JavaScript `filter(Boolean)` step on `metadata?.url`:
drops missing and empty URLs. -/
def jsTruthyUrl : Option String → Option String
  | none => none
  | some u => if u = "" then none else some u

/-- Model of `answerQuestion` (source lines 98-214).  External effects are
oracle parameters: `cached` is the Redis read result, `results` the vector
search result, `llm` the language model (the source passes it a context
string assembled from the high-relevance results together with the question
and state; the oracle receives the same data).  `noDataTTL` and `defaultTTL`
model `NO_DATA_CACHE_TTL` (default 60) and `DEFAULT_CACHE_TTL` (default
300). -/
def answerQuestion (question state : String) (cached : Option AnswerResult)
    (results : List (Doc × ℚ)) (llm : List (Doc × ℚ) → String → String → String)
    (noDataTTL defaultTTL : ℕ) : QueryOutcome :=
  match cached with
  | some r => ⟨r, none, false⟩
  | none =>
    if areResultsRelevant results question then
      let relevantResults := results.filter (fun r => decide (7/10 ≤ r.2))
      let sourceUrls :=
        if 0 < relevantResults.length then
          jsDedup (relevantResults.filterMap (fun r => jsTruthyUrl r.1.url))
        else []
      ⟨⟨llm relevantResults question state, sourceUrls⟩, some defaultTTL, true⟩
    else
      ⟨⟨noDataContent question state, []⟩, some noDataTTL, false⟩

/-! ## Crawl job tracker (`src/utils/track_crawler_jobs/index.ts`)

Timestamps are modelled as `ℕ` (milliseconds, as `Date.getTime()`);
durations as `ℚ` (seconds, `(now - started_at) / 1000`).  The database row
is modelled as a record, and each tracker function as a pure transition on
that record with the current time passed in as an oracle. -/

/-- Status enumeration of a crawler job (source lines 14-28). -/
inductive JobStatus
  | pending
  | processing
  | completed
  | failed
deriving DecidableEq

/-- Database row of a crawler job, restricted to the fields the tracker
writes (source interface `CrawlerJob`). -/
structure JobRecord where
  state : String
  urls : List String
  max_urls : ℕ
  status : JobStatus
  web_urls_found : Option ℕ
  pdf_urls_found : Option ℕ
  error_message : Option String
  started_at : Option ℕ
  completed_at : Option ℕ
  duration_seconds : Option ℚ
deriving DecidableEq

/-- Optional-field update object, modelling the `Partial<CrawlerJob>`
argument `data` of `updateCrawlerJobStatus`. -/
structure UpdateData where
  web_urls_found : Option ℕ
  pdf_urls_found : Option ℕ
  error_message : Option String
  started_at : Option ℕ
  completed_at : Option ℕ
  duration_seconds : Option ℚ
deriving DecidableEq

/-- Update object with every field absent. -/
def emptyUpdateData : UpdateData :=
  ⟨none, none, none, none, none, none⟩

/-- Field-wise application of a defined update value: the SQL `UPDATE` sets
a column only when the corresponding entry of `data` is defined. -/
def updField {α : Type} (new cur : Option α) : Option α :=
  match new with
  | some v => some v
  | none => cur

/-- Model of `createCrawlerJob` (source lines 37-50): inserts a row with
status `pending` and no timestamps.  The JavaScript `maxUrls || 1000`
treats `0` as absent. -/
def createCrawlerJob (state : String) (urls : List String) (maxUrls : Option ℕ) : JobRecord :=
  { state := state
    urls := urls
    max_urls := match maxUrls with | some n => if n = 0 then 1000 else n | none => 1000
    status := JobStatus.pending
    web_urls_found := none
    pdf_urls_found := none
    error_message := none
    started_at := none
    completed_at := none
    duration_seconds := none }

/-- Model of `updateCrawlerJobStatus` (source lines 58-111).  The status
column is always written; the `started_at` defaulting on `processing` and
the `completed_at`/`duration_seconds` computation on a terminal status
happen only inside the `if (data)` guard, i.e. only when a `data` object
was passed.  `now` models `new Date()`. -/
def updateCrawlerJobStatus (job : JobRecord) (status : JobStatus)
    (data : Option UpdateData) (now : ℕ) : JobRecord :=
  match data with
  | none => { job with status := status }
  | some d =>
    let d1 :=
      if status = JobStatus.processing ∧ d.started_at = none then
        { d with started_at := some now }
      else d
    let d2 :=
      if status = JobStatus.completed ∨ status = JobStatus.failed then
        { d1 with
          completed_at := some now
          duration_seconds :=
            match job.started_at with
            | some t => some (((now : ℚ) - (t : ℚ)) / 1000)
            | none => d1.duration_seconds }
      else d1
    { job with
      status := status
      web_urls_found := updField d2.web_urls_found job.web_urls_found
      pdf_urls_found := updField d2.pdf_urls_found job.pdf_urls_found
      error_message := updField d2.error_message job.error_message
      started_at := updField d2.started_at job.started_at
      completed_at := updField d2.completed_at job.completed_at
      duration_seconds := updField d2.duration_seconds job.duration_seconds }

/-- Model of `updateCrawlerJobProgress` (source lines 184-201): writes the
two progress counters, independently of the status. -/
def updateCrawlerJobProgress (job : JobRecord) (webUrlsFound pdfUrlsFound : ℕ) : JobRecord :=
  { job with
    web_urls_found := some webUrlsFound
    pdf_urls_found := some pdfUrlsFound }

/-- Model of `markCrawlerJobAsFailed` (source lines 208-213). -/
def markCrawlerJobAsFailed (job : JobRecord) (errorMessage : String) (now : ℕ) : JobRecord :=
  updateCrawlerJobStatus job JobStatus.failed
    (some { emptyUpdateData with error_message := some errorMessage }) now

/-- Tracker-operation sequence performed by `POST /v1/comprehend/crawl/url`
(`src/routes/comprehend/index.ts`, lines 176-221) on its no-exception path,
as the list of successive job-row states.  `webCount`/`pdfCount` are the
crawl result sizes; `t1 < t2 < t3` the clock readings.  Faithful to the
source control flow: when the crawl finds zero web URLs the handler calls
`markCrawlerJobAsFailed` and sends a 400 response but does not return, so
execution continues to the `completed` transition. -/
def crawlUrlTrace (state : String) (urls : List String) (maxUrls : Option ℕ)
    (webCount pdfCount : ℕ) (t1 t2 t3 : ℕ) : List JobRecord :=
  let j0 := createCrawlerJob state urls maxUrls
  let j1 := updateCrawlerJobStatus j0 JobStatus.processing none t1
  let j2 := updateCrawlerJobProgress j1 webCount pdfCount
  let finalData : UpdateData :=
    { emptyUpdateData with
      web_urls_found := some webCount
      pdf_urls_found := some pdfCount }
  if webCount = 0 then
    let j3 := markCrawlerJobAsFailed j2 "No web URLs found" t2
    let j4 := updateCrawlerJobStatus j3 JobStatus.completed (some finalData) t3
    [j0, j1, j2, j3, j4]
  else
    let j4 := updateCrawlerJobStatus j2 JobStatus.completed (some finalData) t3
    [j0, j1, j2, j4]

/-! ## Sentence/section splitter (`src/utils/chunker/index.ts`, lines 41-107) -/

/-- Sentence-ending punctuation recognised by the splitter regex
`[^.!?]+[.!?]+`. -/
def isTerminator (c : Char) : Bool :=
  c == '.' || c == '!' || c == '?'

/-- State machine computing all matches of the JavaScript global regex
`/[^.!?]+[.!?]+/g` over a character list.  Because the two character
classes are complementary, the greedy match needs no backtracking: a match
is a maximal non-terminator run immediately followed by a maximal
terminator run.  `nonterm` and `term` are the runs of the match being
built, `acc` the finished matches in reverse.  A trailing non-terminator
run with no terminator after it is not part of any match and is dropped. -/
def smAux : List Char → List Char → List Char → List (List Char) → List (List Char)
  | [], nonterm, term, acc =>
    if term = [] then acc.reverse else ((nonterm ++ term) :: acc).reverse
  | c :: cs, nonterm, term, acc =>
    if isTerminator c then
      if nonterm = [] then smAux cs nonterm term acc
      else smAux cs nonterm (term ++ [c]) acc
    else
      if term = [] then smAux cs (nonterm ++ [c]) term acc
      else smAux cs [c] [] ((nonterm ++ term) :: acc)

/-- All matches of `line.match(/[^.!?]+[.!?]+/g)` in order. -/
def sentenceMatches (line : String) : List String :=
  (smAux line.toList [] [] []).map List.asString

/-- Model of `line.match(/[^.!?]+[.!?]+/g) || [line]` (source line 94): the
matched sentences, or the whole line when the regex finds no match. -/
def lineSentences (line : String) : List String :=
  match sentenceMatches line with
  | [] => [line]
  | ms => ms

/-- Model of the list-item test `line.match(/^[-*+]\s+/) ||
line.match(/^\d+\.\s+/)` (source line 84). -/
def isListItem (line : String) : Bool :=
  (match line.toList with
   | c :: d :: _ => (c == '-' || c == '*' || c == '+') && d.isWhitespace
   | _ => false) ||
  (match (line.toList.dropWhile Char.isDigit) with
   | c :: d :: _ =>
     decide (line.toList.takeWhile Char.isDigit ≠ []) && c == '.' && d.isWhitespace
   | _ => false)

/-- Tests whether the last character of a string is sentence-ending
punctuation. -/
def lastIsTerminator (s : String) : Bool :=
  match s.toList.getLast? with
  | some c => isTerminator c
  | none => false

/-- Flushes the accumulated section, if non-empty, as one unit joined with
newlines (source pattern `sentences.push(currentSection.join("\n"))`). -/
def flushSection (cur : List String) : List String :=
  match cur with
  | [] => []
  | _ => [jsJoin "\n" cur]

/-- Line-by-line loop of `splitIntoSentences` (source lines 48-101).
State: `codeBlock` toggle, finished units `acc`, accumulating section
`cur`. -/
def splitLoop : Bool → List String → List String → List String → List String
  | _, acc, cur, [] => acc ++ flushSection cur
  | codeBlock, acc, cur, l :: ls =>
    let line := jsTrim l
    if line = "" then splitLoop codeBlock (acc ++ flushSection cur) [] ls
    else if jsStartsWith "```" line then splitLoop (!codeBlock) acc (cur ++ [line]) ls
    else if codeBlock then splitLoop codeBlock acc (cur ++ [line]) ls
    else if jsStartsWith "#" line then
      splitLoop codeBlock (acc ++ flushSection cur ++ [line]) [] ls
    else if isListItem line then
      splitLoop codeBlock (acc ++ flushSection cur ++ [line]) [] ls
    else splitLoop codeBlock acc (cur ++ lineSentences line) ls

/-- Model of `splitIntoSentences` (source lines 41-107): split into lines,
run the markdown-aware accumulation loop, then drop units that trim to
empty and trim the rest. -/
def splitIntoSentences (text : String) : List String :=
  ((splitLoop false [] [] (jsSplit '\n' text)).filter
    (fun s => !(jsTrim s).isEmpty)).map jsTrim

/-! ## Semantic chunker (`src/utils/chunker/index.ts`, lines 30-260)

Embedding vectors are `List ℝ` (JavaScript `Float32Array` idealised as real
vectors). -/

/-- Dot product of two vectors, modelling
`vecA.reduce((sum, a, idx) => sum + a * vecB[idx], 0)`.  The reduce indexes
`vecB` by positions of `vecA`; all call sites and all claims use
equal-length vectors, where `zipWith` coincides. -/
def dotProduct (vecA vecB : List ℝ) : ℝ :=
  (List.zipWith (fun a b => a * b) vecA vecB).sum

/-- Euclidean magnitude `Math.sqrt(v.reduce((sum, a) => sum + a * a, 0))`. -/
noncomputable def magnitude (v : List ℝ) : ℝ :=
  Real.sqrt (dotProduct v v)

/-- Model of `cosineSimilarity` (source lines 30-35): the JavaScript
ternary `magnitudeA && magnitudeB ? dot / (magA * magB) : 0` yields the
quotient when both magnitudes are non-zero and `0` otherwise. -/
noncomputable def cosineSimilarity (vecA vecB : List ℝ) : ℝ :=
  if magnitude vecA ≠ 0 ∧ magnitude vecB ≠ 0 then
    dotProduct vecA vecB / (magnitude vecA * magnitude vecB)
  else 0

/-- Chunk record (source interfaces `BaseChunk`/`ChunkWithTokenLength`/
`ChunkWithEmbedding`/`ChunkWithAll`): the conditionally attached fields are
modelled as options, present exactly when the corresponding flag is set. -/
structure Chunk where
  document_id : ℤ
  document_name : String
  number_of_chunks : ℕ
  chunk_number : ℕ
  text : String
  token_length : Option ℕ
  embedding : Option (List ℝ)

/-- Model of the JavaScript `documentName || "Unnamed Document"` (empty
string is falsy). -/
def jsDocName : Option String → String
  | some s => if s = "" then "Unnamed Document" else s
  | none => "Unnamed Document"

/-- Builds one emitted chunk (source lines 194-208 and 220-234):
`chunkIndex` is the number of chunks already emitted, the attached
embedding is `chunkEmbeddings[0]`, and `number_of_chunks` is a placeholder
backfilled later. -/
def mkChunk (documentId : ℤ) (documentName : Option String)
    (returnEmbedding returnTokenLength : Bool) (chunkIndex : ℕ)
    (currentText : String) (chunkEmbeddings : List (List ℝ)) : Chunk :=
  { document_id := documentId
    document_name := jsDocName documentName
    number_of_chunks := 0
    chunk_number := chunkIndex + 1
    text := currentText
    token_length := if returnTokenLength then some currentText.length else none
    embedding := if returnEmbedding then chunkEmbeddings.head? else none }

/-- Loop of `formChunks` (source lines 189-237), walking the units from
index 1 paired with their window embeddings; `prev` is the previous unit
window embedding `embeddings[i-1]`.  A chunk is closed when the similarity
falls below the threshold or the accumulated text plus the incoming unit
exceeds `maxTokens`; the final open chunk is flushed when non-empty. -/
noncomputable def formChunksLoop (similarityThreshold : ℝ) (maxTokens : ℕ)
    (documentId : ℤ) (documentName : Option String)
    (returnEmbedding returnTokenLength : Bool) :
    List (String × List ℝ) → List Chunk → List String → List (List ℝ) → List ℝ → List Chunk
  | [], chunks, currentChunk, chunkEmbeddings, _ =>
    match currentChunk with
    | [] => chunks
    | _ =>
      chunks ++ [mkChunk documentId documentName returnEmbedding returnTokenLength
        chunks.length (jsJoin " " currentChunk) chunkEmbeddings]
  | (s, e) :: rest, chunks, currentChunk, chunkEmbeddings, prev =>
    let currentText := jsJoin " " currentChunk
    if cosineSimilarity prev e < similarityThreshold ∨
        maxTokens < currentText.length + s.length then
      formChunksLoop similarityThreshold maxTokens documentId documentName
        returnEmbedding returnTokenLength rest
        (chunks ++ [mkChunk documentId documentName returnEmbedding returnTokenLength
          chunks.length currentText chunkEmbeddings])
        [s] [e] e
    else
      formChunksLoop similarityThreshold maxTokens documentId documentName
        returnEmbedding returnTokenLength rest
        chunks (currentChunk ++ [s]) (chunkEmbeddings ++ [e]) e

/-- Model of `formChunks` (source lines 175-241): seed the first chunk with
unit 0 and its embedding, run the loop over the remaining unit/embedding
pairs, then backfill `number_of_chunks` with the final count.  On an empty
unit list the JavaScript dereferences `sentences[0]` (undefined) and
fabricates a degenerate chunk; all claims restrict to non-empty parallel
inputs, so the unreachable shapes are mapped to `[]`. -/
noncomputable def formChunks (sentences : List String) (embeddings : List (List ℝ))
    (similarityThreshold : ℝ) (maxTokens : ℕ) (documentId : ℤ)
    (documentName : Option String) (returnEmbedding returnTokenLength : Bool) : List Chunk :=
  match sentences, embeddings with
  | s0 :: sRest, e0 :: eRest =>
    let cs := formChunksLoop similarityThreshold maxTokens documentId documentName
      returnEmbedding returnTokenLength (sRest.zip eRest) [] [s0] [e0] e0
    cs.map (fun c => { c with number_of_chunks := cs.length })
  | _, _ => []

/-- Model of `createSentenceGroups` (source lines 112-116):
`sentences.slice(max(0, i - windowSize), min(n, i + windowSize + 1))` for
each index `i` (truncated subtraction realises the `max(0, ...)`). -/
def createSentenceGroups (sentences : List String) (windowSize : ℕ) : List (List String) :=
  (List.range sentences.length).map (fun i =>
    (sentences.drop (i - windowSize)).take
      (min sentences.length (i + windowSize + 1) - (i - windowSize)))

/-- Model of `semanticChunk` (source lines 246-260).  The embedding model
(`generateEmbeddings`, an external pretrained network) is the oracle
`embed`; each window is embedded from its space-joined text
(`generateSentenceEmbeddings`, lines 121-124).  `documentId` models the
`Date.now()` clock reading. -/
noncomputable def semanticChunk (embed : String → List ℝ) (documentId : ℤ)
    (text : String) (windowSize : ℕ) (similarityThreshold : ℝ) (maxTokens : ℕ)
    (documentName : Option String) (returnEmbedding returnTokenLength : Bool) : List Chunk :=
  let sentences := splitIntoSentences text
  let sentenceGroups := createSentenceGroups sentences windowSize
  let embeddings := sentenceGroups.map (fun g => embed (jsJoin " " g))
  formChunks sentences embeddings similarityThreshold maxTokens documentId
    documentName returnEmbedding returnTokenLength

/-- Modelled from the spec (§4.4 steps 4-5): the chunk boundary rule stated
in the specification, producing the partition of the unit list into chunk
unit-groups.  Walking units from index 1, the current group is closed and a
new one started with unit `i` exactly when the cosine similarity of the
window embeddings of units `i-1` and `i` falls below the threshold, or the
length of unit `i` added to the length of the space-joined accumulated text
exceeds `maxTokens`; the final open group is always flushed. -/
noncomputable def specChunkGroupsLoop (similarityThreshold : ℝ) (maxTokens : ℕ) :
    List (String × List ℝ) → List String → List ℝ → List (List String)
  | [], current, _ => [current]
  | (s, e) :: rest, current, prev =>
    if cosineSimilarity prev e < similarityThreshold ∨
        maxTokens < (jsJoin " " current).length + s.length then
      current :: specChunkGroupsLoop similarityThreshold maxTokens rest [s] e
    else
      specChunkGroupsLoop similarityThreshold maxTokens rest (current ++ [s]) e

/-- Modelled from the spec (§4.4): the unit-group partition determined by
the boundary rule, starting the first chunk with unit 0. -/
noncomputable def specChunkGroups (sentences : List String) (embeddings : List (List ℝ))
    (similarityThreshold : ℝ) (maxTokens : ℕ) : List (List String) :=
  match sentences, embeddings with
  | s0 :: sRest, e0 :: eRest =>
    specChunkGroupsLoop similarityThreshold maxTokens (sRest.zip eRest) [s0] e0
  | _, _ => []

/-! ## Concrete oracle instances used in witness statements -/

/-- Constant language-model oracle used in witness statements. -/
def llmOracle : List (Doc × ℚ) → String → String → String :=
  fun _ _ _ => "answer"

/-- Constant embedding oracle used in witness statements. -/
noncomputable def constEmb : String → List ℝ :=
  fun _ => [1]

/-! ## Supporting lemmas -/

/-- Commutativity of the dot product. -/
theorem dotProduct_comm (a b : List ℝ) : dotProduct a b = dotProduct b a := by
  unfold dotProduct
  rw [List.zipWith_comm_of_comm]
  intro x y
  exact mul_comm x y

/-- Nonnegativity of the self dot product. -/
theorem dotProduct_self_nonneg (a : List ℝ) : 0 ≤ dotProduct a a := by
  unfold dotProduct
  rw [List.zipWith_same]
  refine List.sum_nonneg ?_
  intro x hx
  obtain ⟨y, _, rfl⟩ := List.mem_map.1 hx
  exact mul_self_nonneg y

/-- Magnitude of the singleton vector `[1]` is `1`. -/
theorem magnitude_one : magnitude [(1 : ℝ)] = 1 := by
  unfold magnitude dotProduct
  simp

/-- Magnitude of the empty vector is `0`. -/
theorem magnitude_nil : magnitude ([] : List ℝ) = 0 := by
  unfold magnitude dotProduct
  simp

/-! ## Claim theorems -/

/-- C8.  Cosine similarity algebra: for equal-length vectors the similarity
is symmetric; self-similarity is exactly `1` for every vector of non-zero
magnitude (the real-number idealisation of the float claim "within
floating-point tolerance"); and the similarity is `0` whenever either
magnitude is `0`. -/
theorem cosineSimilarity_algebra :
    (∀ a b : List ℝ, a.length = b.length →
      cosineSimilarity a b = cosineSimilarity b a) ∧
    (∀ a : List ℝ, magnitude a ≠ 0 → cosineSimilarity a a = 1) ∧
    (∀ a b : List ℝ, magnitude a = 0 ∨ magnitude b = 0 → cosineSimilarity a b = 0) := by
  refine ⟨?_, ?_, ?_⟩
  · intro a b _
    unfold cosineSimilarity
    rw [dotProduct_comm]
    exact if_congr and_comm (by rw [mul_comm]) rfl
  · intro a ha
    have hd : dotProduct a a ≠ 0 := by
      intro h0
      apply ha
      unfold magnitude
      rw [h0, Real.sqrt_zero]
    unfold cosineSimilarity
    rw [if_pos ⟨ha, ha⟩]
    unfold magnitude
    rw [Real.mul_self_sqrt (dotProduct_self_nonneg a)]
    exact div_self hd
  · intro a b h
    unfold cosineSimilarity
    rw [if_neg]
    intro ⟨h1, h2⟩
    rcases h with h | h
    · exact h1 h
    · exact h2 h

/-- C8 witness: the three conjuncts instantiated at concrete vectors. -/
theorem cosineSimilarity_algebra_witness :
    (cosineSimilarity [(1 : ℝ), 0] [0, 1] = cosineSimilarity [0, 1] [1, 0]) ∧
    (cosineSimilarity [(1 : ℝ)] [1] = 1) ∧
    (cosineSimilarity ([] : List ℝ) [1] = 0) := by
  refine ⟨?_, ?_, ?_⟩
  · exact cosineSimilarity_algebra.1 [1, 0] [0, 1] rfl
  · exact cosineSimilarity_algebra.2.1 [1] (by rw [magnitude_one]; exact one_ne_zero)
  · exact cosineSimilarity_algebra.2.2 [] [1] (Or.inl magnitude_nil)

/-- C6.  The claim states that every `updateCrawlerJobStatus` call with
status `processing` on a job without `started_at` stores a timestamp,
including calls passing no data object.  The code contradicts this: the
`started_at` defaulting sits inside the `if (data)` guard, so the
data-less call used by both ingestion routes leaves `started_at` unset
(first conjunct); with a data object passed the timestamp is stored
(second conjunct), matching the intent documented in the spec. -/
theorem processing_without_data_skips_started_at :
    (updateCrawlerJobStatus (createCrawlerJob "NY" ["https://a"] none)
        JobStatus.processing none 5).started_at = none ∧
    (updateCrawlerJobStatus (createCrawlerJob "NY" ["https://a"] none)
        JobStatus.processing (some emptyUpdateData) 5).started_at = some 5 := by
  decide

/-- C5.  The claim states that along the tracker-operation sequences issued
by the ingestion routes a job status never regresses and `completed_at` is
written exactly once.  Evaluating the modelled `POST /crawl/url` sequence
on a crawl that finds zero web URLs: the handler marks the job `failed`
(a terminal state, `completed_at := 2000`), then — the source sends a 400
response without returning — continues and marks the same job `completed`,
leaving the terminal state and rewriting `completed_at` to `3000`. -/
theorem crawlUrl_status_regression :
    ((crawlUrlTrace "NY" ["https://a"] none 0 0 1000 2000 3000).map JobRecord.status =
      [JobStatus.pending, JobStatus.processing, JobStatus.processing,
        JobStatus.failed, JobStatus.completed]) ∧
    ((crawlUrlTrace "NY" ["https://a"] none 0 0 1000 2000 3000).map
        (fun j => j.completed_at) = [none, none, none, some 2000, some 3000]) := by
  decide

/-- C9.  Zero-key-term questions are rejected: on a non-empty result list
whose top score is at least `0.7`, a question yielding no key terms makes
`areResultsRelevant` return `false`.  In the JavaScript the ratio is
`0 / 0 = NaN` and `NaN >= 0.5` is false; in the rational model the total
division gives `0 / 0 = 0` and `0.5 <= 0` is false — the same verdict. -/
theorem zero_key_terms_rejected (d : Doc) (s : ℚ) (rest : List (Doc × ℚ))
    (question : String) (hs : 7/10 ≤ s) (hq : keyTermsOf question = []) :
    areResultsRelevant ((d, s) :: rest) question = false := by
  simp only [areResultsRelevant, not_lt.2 hs, if_false, termMatches, hq,
    List.filter_nil, List.length_nil, Nat.cast_zero, div_zero]
  norm_num

/-- C9 witness: concrete top score `0.9` and the stopword question `the`. -/
theorem zero_key_terms_rejected_witness :
    (7/10 : ℚ) ≤ 9/10 ∧ keyTermsOf "the" = [] ∧
    areResultsRelevant [(⟨"x", none⟩, 9/10)] "the" = false :=
  ⟨by norm_num, by decide,
    zero_key_terms_rejected ⟨"x", none⟩ (9/10) [] "the" (by norm_num) (by decide)⟩

/-- Conversion between the rational match-ratio test and the integer
counting form, for a positive number of key terms. -/
theorem half_le_ratio_iff (m n : ℕ) (hn : 0 < n) :
    (1 : ℚ)/2 ≤ (m : ℚ) / (n : ℚ) ↔ n ≤ 2 * m := by
  rw [div_le_div_iff₀ (by norm_num) (by exact_mod_cast hn), one_mul]
  constructor
  · intro h
    have hq : (n : ℚ) ≤ 2 * m := by linarith
    exact_mod_cast hq
  · intro h
    have hq : (n : ℚ) ≤ 2 * m := by exact_mod_cast h
    linarith

/-- Acceptance characterisation of `areResultsRelevant`, shared by the
claims about the relevance filter and the query engine. -/
theorem areResultsRelevant_true_iff (results : List (Doc × ℚ)) (question : String) :
    areResultsRelevant results question = true ↔
      (∃ p rest, results = p :: rest ∧ ¬ p.2 < 7/10) ∧
      keyTermsOf question ≠ [] ∧
      (keyTermsOf question).length ≤ 2 * (termMatches results question).length := by
  cases results with
  | nil =>
    constructor
    · intro h
      exact absurd h (by simp [areResultsRelevant])
    · rintro ⟨⟨p, rest, heq, -⟩, -, -⟩
      exact absurd heq (by simp)
  | cons p rest =>
    obtain ⟨d, s⟩ := p
    by_cases hs : s < 7/10
    · constructor
      · intro h
        simp only [areResultsRelevant, if_pos hs] at h
        cases h
      · rintro ⟨⟨p1, rest1, heq, hp1⟩, -, -⟩
        injection heq with h1 h2
        rw [← h1] at hp1
        exact absurd hs hp1
    · constructor
      · intro h
        simp only [areResultsRelevant, if_neg hs, decide_eq_true_eq] at h
        have hk : keyTermsOf question ≠ [] := by
          intro hk0
          rw [hk0] at h
          simp at h
          norm_num at h
        have hn : 0 < (keyTermsOf question).length := List.length_pos.2 hk
        exact ⟨⟨(d, s), rest, rfl, hs⟩, hk,
          (half_le_ratio_iff (termMatches ((d, s) :: rest) question).length
            (keyTermsOf question).length hn).1 h⟩
      · rintro ⟨-, hk, hle⟩
        have hn : 0 < (keyTermsOf question).length := List.length_pos.2 hk
        simp only [areResultsRelevant, if_neg hs, decide_eq_true_eq]
        exact (half_le_ratio_iff (termMatches ((d, s) :: rest) question).length
          (keyTermsOf question).length hn).2 hle

/-- C3 counterexample: the claim as stated characterises acceptance as
"at least 50% of the key terms occur", which a question with zero key
terms satisfies vacuously; with the top score `0.95` the claim then
predicts `true`, but the function returns `false` (the float ratio is
`NaN`, which fails the `>= 0.5` test). -/
theorem areResultsRelevant_zero_terms_cex :
    keyTermsOf "the" = [] ∧ ¬ ((19/20 : ℚ) < 7/10) ∧
    areResultsRelevant [(⟨"x", none⟩, 19/20)] "the" = false := by
  refine ⟨by decide, by norm_num, ?_⟩
  rw [Bool.eq_false_iff]
  intro h
  exact ((areResultsRelevant_true_iff _ _).1 h).2.1 (by decide)

/-- C3 amended.  Acceptance characterisation of `areResultsRelevant`: the
result is `true` exactly when the result list is non-empty with first
score not below `0.7`, the lower-cased question yields at least one key
term (space-separated word longer than 3 characters, not a stopword), and
at least 50% of the key terms occur as substrings of the lower-cased,
space-joined text of the first three results.  The amendment relative to
the original claim is the "at least one key term" conjunct: with zero key
terms the function returns `false`. -/
theorem areResultsRelevant_characterization (results : List (Doc × ℚ)) (question : String) :
    areResultsRelevant results question = true ↔
      (∃ p rest, results = p :: rest ∧ ¬ p.2 < 7/10) ∧
      keyTermsOf question ≠ [] ∧
      (keyTermsOf question).length ≤ 2 * (termMatches results question).length :=
  areResultsRelevant_true_iff results question

/-- Accepted result lists have a non-empty high-relevance subset: the first
result's score passed the `0.7` gate, so it survives the `score >= 0.7`
filter. -/
theorem relevant_filter_nonempty (results : List (Doc × ℚ)) (question : String)
    (h : areResultsRelevant results question = true) :
    0 < (results.filter (fun r => decide (7/10 ≤ r.2))).length := by
  cases results with
  | nil => simp [areResultsRelevant] at h
  | cons p rest =>
    obtain ⟨d, s⟩ := p
    by_cases hs : s < 7/10
    · simp only [areResultsRelevant, if_pos hs] at h
      cases h
    · simp [List.filter_cons, not_lt.1 hs]

/-- C4.  Answer shape of `answerQuestion` on the search path (cache miss):
when the relevance filter rejects, the returned sources are exactly empty,
no language-model call is made, and the cache write uses the short
no-data TTL; when the filter accepts, the returned sources are exactly the
de-duplicated defined-and-non-empty source URLs of the results whose
individual score is at least `0.7`, the cache write uses the default TTL
(and the language model is called). -/
theorem answerQuestion_shape (question state : String) (results : List (Doc × ℚ))
    (llm : List (Doc × ℚ) → String → String → String) (noDataTTL defaultTTL : ℕ) :
    (areResultsRelevant results question = false →
      (answerQuestion question state none results llm noDataTTL defaultTTL).result.sources = [] ∧
      (answerQuestion question state none results llm noDataTTL defaultTTL).llmCalled = false ∧
      (answerQuestion question state none results llm noDataTTL defaultTTL).cacheWriteTTL
        = some noDataTTL) ∧
    (areResultsRelevant results question = true →
      (answerQuestion question state none results llm noDataTTL defaultTTL).result.sources =
        jsDedup ((results.filter (fun r => decide (7/10 ≤ r.2))).filterMap
          (fun r => jsTruthyUrl r.1.url)) ∧
      (answerQuestion question state none results llm noDataTTL defaultTTL).cacheWriteTTL
        = some defaultTTL ∧
      (answerQuestion question state none results llm noDataTTL defaultTTL).llmCalled = true) := by
  constructor
  · intro h
    simp [answerQuestion, h]
  · intro h
    have hpos := relevant_filter_nonempty results question h
    simp [answerQuestion, h, hpos]

/-- C4 witness: the reject branch on an empty result set, and the accept
branch on a single high-scoring result with matching key terms. -/
theorem answerQuestion_shape_witness :
    ((answerQuestion "zoning" "NY" none [] llmOracle 60 300).result.sources = [] ∧
     (answerQuestion "zoning" "NY" none [] llmOracle 60 300).llmCalled = false ∧
     (answerQuestion "zoning" "NY" none [] llmOracle 60 300).cacheWriteTTL = some 60) ∧
    ((answerQuestion "city tax rules info" "NY" none
        [(⟨"new york city tax rules", some "https://x"⟩, 9/10)] llmOracle 60 300).result.sources =
      jsDedup (([((⟨"new york city tax rules", some "https://x"⟩ : Doc), (9/10 : ℚ))].filter
          (fun r => decide (7/10 ≤ r.2))).filterMap (fun r => jsTruthyUrl r.1.url)) ∧
     (answerQuestion "city tax rules info" "NY" none
        [(⟨"new york city tax rules", some "https://x"⟩, 9/10)] llmOracle 60 300).cacheWriteTTL
       = some 300 ∧
     (answerQuestion "city tax rules info" "NY" none
        [(⟨"new york city tax rules", some "https://x"⟩, 9/10)] llmOracle 60 300).llmCalled
       = true) :=
  ⟨(answerQuestion_shape "zoning" "NY" [] llmOracle 60 300).1 (by decide),
   (answerQuestion_shape "city tax rules info" "NY"
      [(⟨"new york city tax rules", some "https://x"⟩, 9/10)] llmOracle 60 300).2
     ((areResultsRelevant_true_iff _ _).2
       ⟨⟨(⟨"new york city tax rules", some "https://x"⟩, 9/10), [], rfl, by norm_num⟩,
        by decide, by decide⟩)⟩

/-- Text field of a freshly built chunk. -/
theorem mkChunk_text (docId : ℤ) (docName : Option String) (re rtl : Bool)
    (i : ℕ) (t : String) (es : List (List ℝ)) :
    (mkChunk docId docName re rtl i t es).text = t := rfl

/-- Backfilling `number_of_chunks` leaves the chunk texts unchanged. -/
theorem map_text_set_count (cs : List Chunk) (n : ℕ) :
    (cs.map (fun c => { c with number_of_chunks := n })).map Chunk.text
      = cs.map Chunk.text := by
  rw [List.map_map]
  rfl

/-- Core refinement invariant: from any loop state with a non-empty open
chunk, the texts of the chunks produced by the `formChunks` loop are the
already emitted texts followed by the space-joins of the unit groups that
the specification boundary rule produces from the same state. -/
theorem formChunksLoop_map_text (thr : ℝ) (maxT : ℕ) (docId : ℤ)
    (docName : Option String) (re rtl : Bool) :
    ∀ (rest : List (String × List ℝ)) (chunks : List Chunk)
      (currentChunk : List String) (chunkEmbeddings : List (List ℝ))
      (prev : List ℝ), currentChunk ≠ [] →
      (formChunksLoop thr maxT docId docName re rtl rest chunks currentChunk
          chunkEmbeddings prev).map Chunk.text
        = chunks.map Chunk.text
          ++ (specChunkGroupsLoop thr maxT rest currentChunk prev).map (jsJoin " ") := by
  intro rest
  induction rest with
  | nil =>
    intro chunks currentChunk chunkEmbeddings prev h
    cases currentChunk with
    | nil => exact absurd rfl h
    | cons c cs => simp [formChunksLoop, specChunkGroupsLoop, mkChunk]
  | cons p rest ih =>
    intro chunks currentChunk chunkEmbeddings prev h
    obtain ⟨s, e⟩ := p
    by_cases hc : cosineSimilarity prev e < thr ∨
        maxT < (jsJoin " " currentChunk).length + s.length
    · simp only [formChunksLoop, specChunkGroupsLoop, if_pos hc]
      rw [ih (chunks ++ [mkChunk docId docName re rtl chunks.length
            (jsJoin " " currentChunk) chunkEmbeddings]) [s] [e] e (by simp)]
      simp [mkChunk]
    · simp only [formChunksLoop, specChunkGroupsLoop, if_neg hc]
      exact ih chunks (currentChunk ++ [s]) (chunkEmbeddings ++ [e]) e (by simp)

/-- Joining the unit groups of the specification boundary rule recovers the
open chunk followed by the remaining units. -/
theorem specChunkGroupsLoop_flatten (thr : ℝ) (maxT : ℕ) :
    ∀ (rest : List (String × List ℝ)) (current : List String) (prev : List ℝ),
      (specChunkGroupsLoop thr maxT rest current prev).flatten
        = current ++ rest.map Prod.fst := by
  intro rest
  induction rest with
  | nil =>
    intro current prev
    simp [specChunkGroupsLoop]
  | cons p rest ih =>
    intro current prev
    obtain ⟨s, e⟩ := p
    by_cases hc : cosineSimilarity prev e < thr ∨
        maxT < (jsJoin " " current).length + s.length
    · simp only [specChunkGroupsLoop, if_pos hc, List.flatten_cons, ih]
      simp
    · simp only [specChunkGroupsLoop, if_neg hc, ih]
      simp

/-- Unit groups of the specification boundary rule are non-empty when the
open chunk is. -/
theorem specChunkGroupsLoop_ne_nil (thr : ℝ) (maxT : ℕ) :
    ∀ (rest : List (String × List ℝ)) (current : List String) (prev : List ℝ),
      current ≠ [] → ∀ g ∈ specChunkGroupsLoop thr maxT rest current prev, g ≠ [] := by
  intro rest
  induction rest with
  | nil =>
    intro current prev h g hg
    simp only [specChunkGroupsLoop, List.mem_singleton] at hg
    rw [hg]
    exact h
  | cons p rest ih =>
    intro current prev h g hg
    obtain ⟨s, e⟩ := p
    by_cases hc : cosineSimilarity prev e < thr ∨
        maxT < (jsJoin " " current).length + s.length
    · simp only [specChunkGroupsLoop, if_pos hc, List.mem_cons] at hg
      rcases hg with hg | hg
      · rw [hg]; exact h
      · exact ih [s] e (by simp) g hg
    · simp only [specChunkGroupsLoop, if_neg hc] at hg
      exact ih (current ++ [s]) e (by simp) g hg

/-- C1.  Chunk coverage: for every non-empty unit list with parallel window
embeddings, the texts of the chunks emitted by `formChunks` are the
space-joins of a partition of the unit list into consecutive non-empty
groups — concatenating the groups in emission order yields exactly the
original ordered unit list, so every unit lands in exactly one chunk. -/
theorem formChunks_coverage (sentences : List String) (embeddings : List (List ℝ))
    (thr : ℝ) (maxT : ℕ) (docId : ℤ) (docName : Option String) (re rtl : Bool)
    (hne : sentences ≠ []) (hlen : sentences.length = embeddings.length) :
    ∃ P : List (List String),
      (formChunks sentences embeddings thr maxT docId docName re rtl).map Chunk.text
        = P.map (jsJoin " ") ∧
      P.flatten = sentences ∧ ∀ g ∈ P, g ≠ [] := by
  cases sentences with
  | nil => exact absurd rfl hne
  | cons s0 sRest =>
    cases embeddings with
    | nil => simp at hlen
    | cons e0 eRest =>
      refine ⟨specChunkGroupsLoop thr maxT (sRest.zip eRest) [s0] e0, ?_, ?_, ?_⟩
      · simp only [formChunks]
        rw [map_text_set_count]
        rw [formChunksLoop_map_text thr maxT docId docName re rtl
          (sRest.zip eRest) [] [s0] [e0] e0 (by simp)]
        simp
      · rw [specChunkGroupsLoop_flatten]
        rw [List.map_fst_zip sRest eRest (by simpa using Nat.le_of_eq hlen)]
        rfl
      · exact specChunkGroupsLoop_ne_nil thr maxT (sRest.zip eRest) [s0] e0 (by simp)

/-- C1 witness: the coverage statement at a concrete two-unit input. -/
theorem formChunks_coverage_witness :
    ∃ P : List (List String),
      (formChunks ["a", "b"] [[1], [1]] (3/4) 384 0 none false false).map Chunk.text
        = P.map (jsJoin " ") ∧
      P.flatten = ["a", "b"] ∧ ∀ g ∈ P, g ≠ [] :=
  formChunks_coverage ["a", "b"] [[1], [1]] (3/4) 384 0 none false false
    (by decide) (by rfl)

/-- C2.  Chunk boundary rule: the chunk texts produced by `formChunks`
coincide with the space-joins of the unit groups produced by the boundary
rule stated in the specification — walking units from index 1, close the
current chunk and start a new one with unit `i` exactly when the cosine
similarity of the window embeddings of units `i-1` and `i` is below the
threshold or the length of unit `i` plus the length of the space-joined
accumulated text exceeds `maxTokens`, appending otherwise, and always
flushing the final open chunk. -/
theorem formChunks_boundary_rule (sentences : List String) (embeddings : List (List ℝ))
    (thr : ℝ) (maxT : ℕ) (docId : ℤ) (docName : Option String) (re rtl : Bool) :
    (formChunks sentences embeddings thr maxT docId docName re rtl).map Chunk.text
      = (specChunkGroups sentences embeddings thr maxT).map (jsJoin " ") := by
  cases sentences with
  | nil => cases embeddings <;> simp [formChunks, specChunkGroups]
  | cons s0 sRest =>
    cases embeddings with
    | nil => simp [formChunks, specChunkGroups]
    | cons e0 eRest =>
      simp only [formChunks, specChunkGroups]
      rw [map_text_set_count]
      rw [formChunksLoop_map_text thr maxT docId docName re rtl
        (sRest.zip eRest) [] [s0] [e0] e0 (by simp)]
      simp

/-- Every chunk emitted by `formChunks` carries the backfilled total chunk
count. -/
theorem formChunks_count_eq (sentences : List String) (embeddings : List (List ℝ))
    (thr : ℝ) (maxT : ℕ) (docId : ℤ) (docName : Option String) (re rtl : Bool) :
    ∀ c ∈ formChunks sentences embeddings thr maxT docId docName re rtl,
      c.number_of_chunks
        = (formChunks sentences embeddings thr maxT docId docName re rtl).length := by
  cases sentences with
  | nil => cases embeddings <;> simp [formChunks]
  | cons s0 sRest =>
    cases embeddings with
    | nil => simp [formChunks]
    | cons e0 eRest =>
      simp only [formChunks]
      intro c hc
      obtain ⟨c0, _, rfl⟩ := List.mem_map.1 hc
      simp

/-- Window construction degenerates to the single anchor unit on a
one-unit document, for every window size. -/
theorem createSentenceGroups_singleton (s : String) (w : ℕ) :
    createSentenceGroups [s] w = [[s]] := by
  unfold createSentenceGroups
  rw [List.length_singleton, List.range_succ, List.range_zero]
  simp [min_eq_left (show (1 : ℕ) ≤ 0 + w + 1 by omega)]

/-- C7.  Chunk count consistency: every chunk returned by `semanticChunk`
has its `number_of_chunks` field equal to the length of the returned list,
and an input splitting into a single unit yields exactly one chunk. -/
theorem semanticChunk_count_consistency (embed : String → List ℝ) (docId : ℤ)
    (text : String) (w : ℕ) (thr : ℝ) (maxT : ℕ) (docName : Option String)
    (re rtl : Bool) :
    (∀ c ∈ semanticChunk embed docId text w thr maxT docName re rtl,
      c.number_of_chunks
        = (semanticChunk embed docId text w thr maxT docName re rtl).length) ∧
    ((splitIntoSentences text).length = 1 →
      (semanticChunk embed docId text w thr maxT docName re rtl).length = 1) := by
  constructor
  · simp only [semanticChunk]
    exact formChunks_count_eq _ _ thr maxT docId docName re rtl
  · intro h1
    obtain ⟨s, hs⟩ := List.length_eq_one.1 h1
    simp only [semanticChunk, hs, createSentenceGroups_singleton]
    simp [formChunks, formChunksLoop]

/-- C7 witness: a one-sentence document yields exactly one chunk. -/
theorem semanticChunk_count_consistency_witness :
    (splitIntoSentences "hello.").length = 1 ∧
    (semanticChunk constEmb 0 "hello." 2 (3/4) 384 none false false).length = 1 :=
  ⟨by decide,
   (semanticChunk_count_consistency constEmb 0 "hello." 2 (3/4) 384 none
     false false).2 (by decide)⟩

/-- Round trip between `String` and its character list. -/
theorem asString_toList (s : String) : s.toList.asString = s := rfl

/-- Sentence terminators are not whitespace. -/
theorem terminator_not_ws (c : Char) (h : isTerminator c = true) :
    c.isWhitespace = false := by
  unfold isTerminator at h
  rw [Bool.or_eq_true, Bool.or_eq_true] at h
  rcases h with (h | h) | h <;>
    · rw [beq_iff_eq] at h
      subst h
      decide

/-- Splitting at a separator that does not occur returns the input whole. -/
theorem splitChars_no_sep (sep : Char) :
    ∀ (cs acc : List Char), (∀ c ∈ cs, (c == sep) = false) →
      splitChars sep acc cs = [acc.reverse ++ cs] := by
  intro cs
  induction cs with
  | nil =>
    intro acc _
    simp [splitChars]
  | cons c cs ih =>
    intro acc h
    have hc : (c == sep) = false := h c (by simp)
    rw [splitChars, if_neg (by simp [hc])]
    rw [ih (c :: acc) (fun x hx => h x (by simp [hx]))]
    simp

/-- Model of `split` on a string free of the separator. -/
theorem jsSplit_no_sep (sep : Char) (s : String)
    (h : ∀ c ∈ s.toList, (c == sep) = false) : jsSplit sep s = [s] := by
  unfold jsSplit
  rw [splitChars_no_sep sep s.toList [] h]
  show [s.toList.asString] = [s]
  rw [asString_toList]

/-- Running the match automaton on terminator-free input adds no match:
the pending non-terminator run only grows and is dropped at the end. -/
theorem smAux_all_nonterm :
    ∀ (b : List Char), (∀ c ∈ b, isTerminator c = false) →
      ∀ (n t : List Char) (acc : List (List Char)),
        smAux b n t acc = smAux [] n t acc := by
  intro b
  induction b with
  | nil =>
    intro _ n t acc
    rfl
  | cons c cs ih =>
    intro hb n t acc
    have hc : ¬ (isTerminator c = true) := by
      rw [hb c (by simp)]
      simp
    have hcs : ∀ x ∈ cs, isTerminator x = false := fun x hx => hb x (by simp [hx])
    conv_lhs => rw [smAux]
    rw [if_neg hc]
    by_cases ht : t = []
    · rw [if_pos ht, ih hcs]
      subst ht
      rfl
    · rw [if_neg ht, ih hcs, smAux, if_pos rfl, smAux, if_neg ht]

/-- Appending terminator-free text to the input does not change the
matches of `/[^.!?]+[.!?]+/g`. -/
theorem smAux_append_nonterm (xs b : List Char)
    (hb : ∀ c ∈ b, isTerminator c = false) :
    ∀ (n t : List Char) (acc : List (List Char)),
      smAux (xs ++ b) n t acc = smAux xs n t acc := by
  induction xs with
  | nil =>
    intro n t acc
    rw [List.nil_append]
    exact smAux_all_nonterm b hb n t acc
  | cons x xs ih =>
    intro n t acc
    rw [List.cons_append]
    by_cases hx : isTerminator x = true
    · rw [smAux, if_pos hx]
      conv_rhs => rw [smAux, if_pos hx]
      by_cases hn : n = []
      · rw [if_pos hn, if_pos hn, ih]
      · rw [if_neg hn, if_neg hn, ih]
    · rw [smAux, if_neg hx]
      conv_rhs => rw [smAux, if_neg hx]
      by_cases ht : t = []
      · rw [if_pos ht, if_pos ht, ih]
      · rw [if_neg ht, if_neg ht, ih]

/-- The match automaton never discards already collected matches. -/
theorem smAux_ne_nil_of_acc :
    ∀ (xs n t : List Char) (acc : List (List Char)),
      acc ≠ [] → smAux xs n t acc ≠ [] := by
  intro xs
  induction xs with
  | nil =>
    intro n t acc h
    rw [smAux]
    by_cases ht : t = []
    · rw [if_pos ht]
      simpa using h
    · rw [if_neg ht]
      simp
  | cons c cs ih =>
    intro n t acc h
    rw [smAux]
    by_cases hc : isTerminator c = true
    · rw [if_pos hc]
      by_cases hn : n = []
      · rw [if_pos hn]; exact ih n t acc h
      · rw [if_neg hn]; exact ih n (t ++ [c]) acc h
    · rw [if_neg hc]
      by_cases ht : t = []
      · rw [if_pos ht]; exact ih (n ++ [c]) t acc h
      · rw [if_neg ht]; exact ih [c] [] ((n ++ t) :: acc) (by simp)

/-- On input ending in a terminator, the match automaton produces at least
one match, provided a non-terminator occurs (in the pending run or in the
input before the final terminator). -/
theorem smAux_concat_ne_nil :
    ∀ (ys : List Char) (d : Char), isTerminator d = true →
      ∀ (n t : List Char) (acc : List (List Char)),
        (t ≠ [] → n ≠ []) →
        (n ≠ [] ∨ ∃ c ∈ ys, isTerminator c = false) →
        smAux (ys ++ [d]) n t acc ≠ [] := by
  intro ys
  induction ys with
  | nil =>
    intro d hd n t acc _ hex
    have hn : n ≠ [] := by
      rcases hex with h | ⟨c, hc, _⟩
      · exact h
      · cases hc
    rw [List.nil_append, smAux, if_pos hd, if_neg hn, smAux,
      if_neg (show ¬ (t ++ [d] = []) by simp)]
    simp
  | cons y ys ih =>
    intro d hd n t acc hinv hex
    rw [List.cons_append, smAux]
    by_cases hy : isTerminator y = true
    · rw [if_pos hy]
      by_cases hn : n = []
      · have ht : t = [] := by
          by_contra ht
          exact absurd hn (hinv ht)
        rw [if_pos hn]
        refine ih d hd n t acc hinv (Or.inr ?_)
        rcases hex with h | ⟨c, hc, hc2⟩
        · exact absurd hn h
        · rcases List.mem_cons.1 hc with rfl | hc3
          · rw [hy] at hc2; cases hc2
          · exact ⟨c, hc3, hc2⟩
      · rw [if_neg hn]
        exact ih d hd n (t ++ [y]) acc (fun _ => hn) (Or.inl hn)
    · rw [if_neg hy]
      by_cases ht : t = []
      · rw [if_pos ht]
        exact ih d hd (n ++ [y]) t acc (fun _ => by simp) (Or.inl (by simp))
      · rw [if_neg ht]
        exact smAux_ne_nil_of_acc (ys ++ [d]) [y] [] ((n ++ t) :: acc) (by simp)

/-- Appending terminator-free trailing text to a line does not change its
regex matches. -/
theorem sentenceMatches_append_nonterm (a b : String)
    (hb : ∀ c ∈ b.toList, isTerminator c = false) :
    sentenceMatches (a ++ b) = sentenceMatches a := by
  unfold sentenceMatches
  rw [show (a ++ b).toList = a.toList ++ b.toList from String.data_append a b]
  rw [smAux_append_nonterm a.toList b.toList hb]

/-- A line whose last character is a terminator and which contains some
non-terminator character has at least one regex match. -/
theorem sentenceMatches_ne_nil (a : String)
    (hlast : lastIsTerminator a = true)
    (hnon : ∃ c ∈ a.toList, isTerminator c = false) :
    sentenceMatches a ≠ [] := by
  have ha : a.toList ≠ [] := by
    intro h0
    unfold lastIsTerminator at hlast
    rw [h0] at hlast
    cases hlast
  obtain ⟨ys, d, hyd⟩ : ∃ ys d, a.toList = ys ++ [d] :=
    ⟨a.toList.dropLast, a.toList.getLast ha,
      (List.dropLast_append_getLast ha).symm⟩
  have hd : isTerminator d = true := by
    unfold lastIsTerminator at hlast
    rw [hyd, List.getLast?_concat] at hlast
    exact hlast
  have hys : ∃ c ∈ ys, isTerminator c = false := by
    obtain ⟨c, hc, hc2⟩ := hnon
    rw [hyd] at hc
    rcases List.mem_append.1 hc with h | h
    · exact ⟨c, h, hc2⟩
    · rw [List.mem_singleton.1 h] at hc2
      rw [hd] at hc2
      cases hc2
  unfold sentenceMatches
  rw [hyd]
  intro hmap
  exact smAux_concat_ne_nil ys d hd [] [] []
    (fun h => absurd rfl h) (Or.inr hys) (List.map_eq_nil_iff.1 hmap)

/-- Trim is the identity on a list whose first and last characters are not
whitespace. -/
theorem trimChars_eq_self (l : List Char)
    (h1 : ∀ c, l.head? = some c → c.isWhitespace = false)
    (h2 : ∀ c, l.getLast? = some c → c.isWhitespace = false) :
    trimChars l = l := by
  cases l with
  | nil => rfl
  | cons c t =>
    have hc : ¬ (c.isWhitespace = true) := by
      rw [h1 c rfl]
      simp
    unfold trimChars
    rw [List.dropWhile_cons, if_neg hc]
    cases hr : (c :: t).reverse with
    | nil => exact absurd (List.reverse_eq_nil_iff.1 hr) (by simp)
    | cons d r =>
      have hd : (c :: t).getLast? = some d := by
        rw [← List.head?_reverse, hr]
        rfl
      have hdw : ¬ (d.isWhitespace = true) := by
        rw [h2 d hd]
        simp
      rw [List.dropWhile_cons, if_neg hdw, ← hr, List.reverse_reverse]

/-- The first character of a trim-fixed list is not whitespace. -/
theorem head_not_ws_of_trim_eq (l : List Char) (h : trimChars l = l) :
    ∀ c, l.head? = some c → c.isWhitespace = false := by
  intro c hc
  by_contra hws
  rw [Bool.not_eq_false] at hws
  cases l with
  | nil => cases hc
  | cons c0 t =>
    injection hc with hc0
    rw [← hc0] at hws
    have hlen : (trimChars (c0 :: t)).length ≤ t.length := by
      unfold trimChars
      rw [List.dropWhile_cons, if_pos hws]
      rw [List.length_reverse]
      calc (List.dropWhile Char.isWhitespace
              (List.dropWhile Char.isWhitespace t).reverse).length
          ≤ (List.dropWhile Char.isWhitespace t).reverse.length :=
            (List.dropWhile_suffix _).length_le
        _ = (List.dropWhile Char.isWhitespace t).length := List.length_reverse _
        _ ≤ t.length := (List.dropWhile_suffix _).length_le
    rw [h] at hlen
    simp at hlen

/-- A string prefix test survives appending a suffix. -/
theorem jsStartsWith_of_append (p a b : String)
    (h : jsStartsWith p a = true) : jsStartsWith p (a ++ b) = true := by
  unfold jsStartsWith at h ⊢
  rw [show (a ++ b).toList = a.toList ++ b.toList from String.data_append a b]
  rw [List.isPrefixOf_iff_prefix] at h ⊢
  exact h.trans (List.prefix_append a.toList b.toList)

/-- The list-item test depends only on a short prefix of the line, so it
survives appending a suffix. -/
theorem isListItem_append (a b : String) (h : isListItem a = true) :
    isListItem (a ++ b) = true := by
  unfold isListItem at h ⊢
  rw [show (a ++ b).toList = a.toList ++ b.toList from String.data_append a b]
  rw [Bool.or_eq_true] at h ⊢
  rcases h with h | h
  · left
    cases la : a.toList with
    | nil => rw [la] at h; cases h
    | cons c rest =>
      cases rest with
      | nil => rw [la] at h; cases h
      | cons d t =>
        rw [la] at h
        exact h
  · right
    cases hdw : a.toList.dropWhile Char.isDigit with
    | nil => rw [hdw] at h; cases h
    | cons c rest =>
      cases rest with
      | nil => rw [hdw] at h; cases h
      | cons d t =>
        rw [hdw] at h
        rw [Bool.and_eq_true, Bool.and_eq_true] at h
        obtain ⟨⟨h1, h2⟩, h3⟩ := h
        have htw : a.toList.takeWhile Char.isDigit ≠ [] := of_decide_eq_true h1
        have hla : a.toList ≠ [] := by
          intro h0
          rw [h0] at htw
          exact htw rfl
        rw [List.dropWhile_append, hdw]
        rw [if_neg (show ¬ ((c :: d :: t).isEmpty = true) by simp)]
        rw [List.cons_append, List.cons_append]
        have htw2 : (a.toList ++ b.toList).takeWhile Char.isDigit ≠ [] := by
          rw [List.takeWhile_append]
          by_cases hc : (a.toList.takeWhile Char.isDigit).length = a.toList.length
          · rw [if_pos hc]
            intro h0
            exact hla (List.append_eq_nil.1 h0).1
          · rw [if_neg hc]
            exact htw
        rw [Bool.and_eq_true, Bool.and_eq_true]
        exact ⟨⟨decide_eq_true htw2, h2⟩, h3⟩

/-- Computation of `splitIntoSentences` on a single prose line: the line is
trimmed to itself, is not blank, not a code fence, not a heading, not a
list item, and has at least one regex match — the output is the
newline-join of the matches, passed through the final trim-and-filter
step. -/
theorem splitIntoSentences_single_prose (s : String)
    (hnl : ∀ c ∈ s.toList, (c == '\n') = false)
    (htrim : jsTrim s = s)
    (hne : s.toList ≠ [])
    (hfence : jsStartsWith "```" s = false)
    (hhead : jsStartsWith "#" s = false)
    (hlist : isListItem s = false)
    (hms : sentenceMatches s ≠ []) :
    splitIntoSentences s
      = ([jsJoin "\n" (sentenceMatches s)].filter
          (fun u => !(jsTrim u).isEmpty)).map jsTrim := by
  have hs0 : ¬ (jsTrim s = "") := by
    rw [htrim]
    intro h0
    apply hne
    rw [h0]
    rfl
  have hls : lineSentences s = sentenceMatches s := by
    unfold lineSentences
    cases hm : sentenceMatches s with
    | nil => exact absurd hm hms
    | cons x xs => rfl
  unfold splitIntoSentences
  rw [jsSplit_no_sep '\n' s hnl]
  rw [splitLoop]
  rw [if_neg hs0, htrim]
  rw [if_neg (show ¬ (jsStartsWith "```" s = true) by rw [hfence]; simp)]
  rw [if_neg (show ¬ (false = true) by simp)]
  rw [if_neg (show ¬ (jsStartsWith "#" s = true) by rw [hhead]; simp)]
  rw [if_neg (show ¬ (isListItem s = true) by rw [hlist]; simp)]
  rw [hls]
  rw [splitLoop]
  cases hm : sentenceMatches s with
  | nil => exact absurd hm hms
  | cons x xs =>
    rw [List.nil_append]
    rfl

/-- C10 counterexample: the claim states that every prose line containing
a sentence terminator followed by terminator-free trailing text has that
trailing text discarded, the whole-line fallback applying only to lines
with no terminator at all.  The prose line `.a` contains the terminator
`.` followed by the terminator-free trailing text `a`, yet the regex finds
no match (no non-terminator precedes the terminator), the fallback fires,
and the whole line — trailing text included — is kept. -/
theorem splitIntoSentences_fallback_cex :
    jsTrim ".a" = ".a" ∧ jsStartsWith "```" ".a" = false ∧
    jsStartsWith "#" ".a" = false ∧ isListItem ".a" = false ∧
    (".a" : String) = "." ++ "a" ∧ isTerminator '.' = true ∧
    ("a" : String).toList ≠ [] ∧
    (∀ c ∈ ("a" : String).toList, isTerminator c = false) ∧
    splitIntoSentences ".a" = [".a"] := by
  refine ⟨by decide, by decide, by decide, by decide, by decide, by decide,
    by decide, by decide, by decide⟩

/-- C10 amended.  The splitter silently drops input text: for every prose
line of the form `a ++ b` — no newline, trimmed to itself, not a code
fence, heading or list item — where `a` is non-empty, ends in a sentence
terminator and contains at least one non-terminator character (so the
greedy regex `[^.!?]+[.!?]+` finds at least one match), and `b` is
non-empty terminator-free trailing text, the splitter discards `b`
entirely: the emitted units are exactly those of `a` alone, so the units
do not reconstruct the raw input.  The amendment relative to the original
claim is the requirement that some terminator be preceded by a
non-terminator; when the line has terminators but no complete match (for
example `.a`), the whole-line fallback keeps the trailing text. -/
theorem splitIntoSentences_drops_trailing (a b : String)
    (hnl : ∀ c ∈ (a ++ b).toList, (c == '\n') = false)
    (htrim : jsTrim (a ++ b) = a ++ b)
    (hfence : jsStartsWith "```" (a ++ b) = false)
    (hhead : jsStartsWith "#" (a ++ b) = false)
    (hlist : isListItem (a ++ b) = false)
    (ha : a.toList ≠ [])
    (hlast : lastIsTerminator a = true)
    (hnon : ∃ c ∈ a.toList, isTerminator c = false)
    (_hb : b.toList ≠ [])
    (hbterm : ∀ c ∈ b.toList, isTerminator c = false) :
    splitIntoSentences (a ++ b) = splitIntoSentences a := by
  have hab : (a ++ b).toList = a.toList ++ b.toList := String.data_append a b
  have happ : sentenceMatches (a ++ b) = sentenceMatches a :=
    sentenceMatches_append_nonterm a b hbterm
  have hms : sentenceMatches a ≠ [] := sentenceMatches_ne_nil a hlast hnon
  have htrimab : trimChars (a ++ b).toList = (a ++ b).toList :=
    congrArg String.data htrim
  obtain ⟨c0, t0, hc0⟩ : ∃ c0 t0, a.toList = c0 :: t0 := by
    cases hl : a.toList with
    | nil => exact absurd hl ha
    | cons x xs => exact ⟨x, xs, rfl⟩
  have hhab : (a ++ b).toList.head? = some c0 := by
    rw [hab, hc0]
    rfl
  have hc0w : c0.isWhitespace = false :=
    head_not_ws_of_trim_eq (a ++ b).toList htrimab c0 hhab
  obtain ⟨dl, hdl⟩ : ∃ d, a.toList.getLast? = some d := by
    cases hgl : a.toList.getLast? with
    | none => exact absurd (List.getLast?_eq_none_iff.1 hgl) ha
    | some d => exact ⟨d, rfl⟩
  have hdterm : isTerminator dl = true := by
    unfold lastIsTerminator at hlast
    rw [hdl] at hlast
    exact hlast
  have hdw : dl.isWhitespace = false := terminator_not_ws dl hdterm
  have htrima : jsTrim a = a := by
    have e1 : ∀ c, a.toList.head? = some c → c.isWhitespace = false := by
      intro c hc
      rw [hc0] at hc
      injection hc with hcc
      rw [← hcc]
      exact hc0w
    have e2 : ∀ c, a.toList.getLast? = some c → c.isWhitespace = false := by
      intro c hc
      rw [hdl] at hc
      injection hc with hcc
      rw [← hcc]
      exact hdw
    unfold jsTrim
    rw [trimChars_eq_self a.toList e1 e2]
    exact asString_toList a
  have hne_ab : (a ++ b).toList ≠ [] := by
    rw [hab]
    intro h0
    exact ha (List.append_eq_nil.1 h0).1
  have hfence_a : jsStartsWith "```" a = false := by
    cases hp : jsStartsWith "```" a with
    | false => rfl
    | true =>
      have hq := jsStartsWith_of_append "```" a b hp
      rw [hfence] at hq
      cases hq
  have hhead_a : jsStartsWith "#" a = false := by
    cases hp : jsStartsWith "#" a with
    | false => rfl
    | true =>
      have hq := jsStartsWith_of_append "#" a b hp
      rw [hhead] at hq
      cases hq
  have hlist_a : isListItem a = false := by
    cases hp : isListItem a with
    | false => rfl
    | true =>
      have hq := isListItem_append a b hp
      rw [hlist] at hq
      cases hq
  have hnl_a : ∀ c ∈ a.toList, (c == '\n') = false := by
    intro c hc
    refine hnl c ?_
    rw [hab]
    exact List.mem_append_left _ hc
  rw [splitIntoSentences_single_prose (a ++ b) hnl htrim hne_ab hfence hhead hlist
    (by rw [happ]; exact hms)]
  rw [splitIntoSentences_single_prose a hnl_a htrima ha hfence_a hhead_a hlist_a hms]
  rw [happ]

/-- C10 witness: the trailing text ` and more` after the terminated
sentence `Hi there.` is discarded. -/
theorem splitIntoSentences_drops_trailing_witness :
    splitIntoSentences ("Hi there." ++ " and more") = splitIntoSentences "Hi there." :=
  splitIntoSentences_drops_trailing "Hi there." " and more"
    (by decide) (by decide) (by decide) (by decide) (by decide)
    (by decide) (by decide) (by decide) (by decide) (by decide)

end Ov3r
